import Mathlib

/-!
# Verification of the image-lineage walker (`src/ui/components/ImageLineage.tsx`)

This file gives a shallow embedding of the lineage-traversal algorithm of
`ImageLineage.tsx` and proves properties of it.

Modelling conventions:

* TypeScript optional string fields (which may be `undefined` or an empty
  string, both falsy) are modelled as `Option String`; TS truthiness of such a
  field is `isTruthy` below (`some s` with `s` nonempty).
* The external lookup collaborator `findProofsByHash` (from
  `src/lib/database-service`, not part of the repository sources here) is a
  parameter `lookup : String → LookupOutcome`: a call either throws
  (a rejected promise) or returns `{ success, data }`.
* The JS `Set` of visited hashes is modelled as a `List String` used only
  through membership; insertion is modelled by appending.
* The unbounded `while` loop of `traverseLineage` is modelled with an explicit
  fuel parameter `loopRun`; `TravOut.fuelOut` marks fuel exhaustion (never an
  actual behaviour of the source for terminating runs).
* The React hook `useImageLineage` is modelled by `useImageLineage`:
  on a thrown lookup it ends in `HookOut.errorState` (the hook catches the
  error, sets the error message and never calls `setLineage`, so no lineage
  array is produced); otherwise it publishes the node list.
-/

/-- Modelled from the spec: the `ProofRecord` shape of
`src/lib/database-service` (spec section 3), restricted to the fields read by
`ImageLineage.tsx` and produced by `createOrphanProof`. -/
structure ProofRecord where
  id : Option String := none
  imageName : Option String := none
  originalImageHash : Option String := none
  transformedImageHash : Option String := none
  timestamp : String := ""
  proof : String := ""
  publicValues : String := ""
  ipfsMetadataUri : String := ""
  ipfsImageUri : Option String := none
deriving Repr, DecidableEq

/-- One entry of the resolved chain (`LineageNode` of the source); the TS
field `isOrphan?: boolean` defaults to `false` when absent. -/
structure LineageNode where
  proof : ProofRecord
  level : Nat
  isOrphan : Bool := false
deriving Repr, DecidableEq

/-- Outcome of one call to the lookup collaborator `findProofsByHash`:
either the promise rejects (`throws`) or it resolves to `{ success, data }`. -/
inductive LookupOutcome where
  | throws
  | result (success : Bool) (data : Option (List ProofRecord))
deriving Repr, DecidableEq

/-- TS truthiness of an optional string field: present and nonempty. -/
def isTruthy : Option String → Bool
  | none => false
  | some s => if s = "" then false else true

/-- `createOrphanProof` of the source (lines 147-157): a placeholder record
with the given hash as `originalImageHash`, no `transformedImageHash`, the
given display name, and empty descriptive fields. -/
def createOrphanProof (hash : String) (name : String) : ProofRecord :=
  { imageName := some name
    originalImageHash := some hash
    transformedImageHash := none
    proof := ""
    publicValues := ""
    ipfsMetadataUri := ""
    timestamp := "" }

/-- Outcome of one iteration of the `while` loop of `traverseLineage`. -/
inductive StepOut where
  | threw
  | stop (lineageNodes : List LineageNode) (foundParent : Bool)
  | next (lineageNodes : List LineageNode) (visitedHashes : List String)
      (currentHash : String) (level : Nat)
deriving Repr, DecidableEq

/-- Outcome of `traverseLineage` (and of its loop): the final node list with
the final `foundParent` flag, a thrown lookup, or fuel exhaustion of the
model. -/
inductive TravOut where
  | ok (lineageNodes : List LineageNode) (foundParent : Bool)
  | threw
  | fuelOut
deriving Repr, DecidableEq

/-- Outcome of the `useImageLineage` hook: published lineage, or the caught
error state (error message set, no lineage array published). -/
inductive HookOut where
  | ok (lineage : List LineageNode)
  | errorState
  | fuelOut
deriving Repr, DecidableEq

/-- Visited-set update of the accepted-parent branch (source lines 92-96):
add `parentProof.originalImageHash` (truthy in that branch), then its
`transformedImageHash` when truthy. -/
def addVisited (visitedHashes : List String) (parentProof : ProofRecord) :
    List String :=
  (visitedHashes ++ [parentProof.originalImageHash.getD ""]) ++
    (if isTruthy parentProof.transformedImageHash then
      [parentProof.transformedImageHash.getD ""] else [])

/-- The `else if (currentHash)` terminal branch (source lines 114-126): with a
truthy current hash, append a synthesized "Private Image" orphan at the
current level and stop with `foundParent = true`; otherwise plain `break`
(`foundParent` stays `false`). -/
def privateImageStop (lineageNodes : List LineageNode) (currentHash : String)
    (level : Nat) : StepOut :=
  if currentHash = "" then .stop lineageNodes false
  else
    .stop (lineageNodes ++
      [{ proof := createOrphanProof currentHash "Private Image",
         level := level, isOrphan := true }]) true

/-- One iteration of the `while` loop of `traverseLineage` (source lines
73-127).  `foundParent` is reset to `false` at the top of the iteration; the
outcome records the nodes, the continuation state, and the final
`foundParent` value of the iteration. -/
def loopStep (lookup : String → LookupOutcome) (lineageNodes : List LineageNode)
    (visitedHashes : List String) (currentHash : String) (level : Nat) :
    StepOut :=
  match lookup currentHash with
  | .throws => .threw
  | .result success data =>
    match success, data with
    | true, some d =>
      if d = [] then privateImageStop lineageNodes currentHash level
      else
        match d.find? (fun p => p.transformedImageHash == some currentHash) with
        | some parentProof =>
          if isTruthy parentProof.originalImageHash then
            if parentProof.originalImageHash.getD "" ∈ visitedHashes then
              .stop (lineageNodes ++
                [{ proof := parentProof, level := level, isOrphan := true }])
                true
            else
              .next (lineageNodes ++
                  [{ proof := parentProof, level := level, isOrphan := false }])
                (addVisited visitedHashes parentProof)
                (parentProof.originalImageHash.getD "") (level + 1)
          else .stop lineageNodes false
        | none => .stop lineageNodes false
    | _, _ => privateImageStop lineageNodes currentHash level

/-- The `while (currentHash)` loop of `traverseLineage`, with fuel.  The
`foundParent` argument carries the flag of the previous iteration for the
(unreachable in practice) exit through the loop condition. -/
def loopRun (lookup : String → LookupOutcome) :
    Nat → List LineageNode → List String → String → Nat → Bool → TravOut
  | 0, _, _, _, _, _ => .fuelOut
  | fuel + 1, lineageNodes, visitedHashes, currentHash, level, foundParent =>
    if currentHash = "" then .ok lineageNodes foundParent
    else
      match loopStep lookup lineageNodes visitedHashes currentHash level with
      | .threw => .threw
      | .stop ns fp => .ok ns fp
      | .next ns vs h l => loopRun lookup fuel ns vs h l true

/-- Post-loop backfill of `traverseLineage` (source lines 129-141): when the
last iteration did not find a parent and the last node still has a truthy
`originalImageHash`, append an "Unknown Parent Image" orphan one level
deeper. -/
def backfill (lineageNodes : List LineageNode) (foundParent : Bool) :
    List LineageNode :=
  match lineageNodes.getLast? with
  | some lastNode =>
    if !foundParent && isTruthy lastNode.proof.originalImageHash then
      lineageNodes ++
        [{ proof := createOrphanProof (lastNode.proof.originalImageHash.getD "")
              "Unknown Parent Image",
           level := lastNode.level + 1, isOrphan := true }]
    else lineageNodes
  | none => lineageNodes

/-- `traverseLineage` of the source (lines 61-144): early return on a falsy
start hash, then the loop starting at level 1, then the backfill. -/
def traverseLineage (lookup : String → LookupOutcome) (fuel : Nat)
    (lineageNodes : List LineageNode) (visitedHashes : List String)
    (startHash : Option String) : TravOut :=
  if isTruthy startHash = false then .ok lineageNodes false
  else
    match loopRun lookup fuel lineageNodes visitedHashes (startHash.getD "") 1
        false with
    | .threw => .threw
    | .fuelOut => .fuelOut
    | .ok ns foundParent => .ok (backfill ns foundParent) foundParent

/-- Initial node list of the hook (source line 28). -/
def initialNodes (currentProof : ProofRecord) : List LineageNode :=
  [{ proof := currentProof, level := 0, isOrphan := false }]

/-- Initial visited set of the hook (source lines 31-37): the starting
proof's hashes, whichever are truthy. -/
def initialVisited (currentProof : ProofRecord) : List String :=
  (if isTruthy currentProof.originalImageHash then
    [currentProof.originalImageHash.getD ""] else []) ++
  (if isTruthy currentProof.transformedImageHash then
    [currentProof.transformedImageHash.getD ""] else [])

/-- The `fetchLineage` body of the `useImageLineage` hook (source lines
22-55): build the initial state, traverse, publish the node list on success;
a thrown lookup is caught, the error state is set and no lineage array is
published. -/
def useImageLineage (lookup : String → LookupOutcome) (fuel : Nat)
    (currentProof : ProofRecord) : HookOut :=
  match traverseLineage lookup fuel (initialNodes currentProof)
      (initialVisited currentProof) currentProof.originalImageHash with
  | .threw => .errorState
  | .fuelOut => .fuelOut
  | .ok ns _ => .ok ns

/-! ## Basic lemmas about the building blocks -/

theorem isTruthy_some {s : String} (hs : s ≠ "") : isTruthy (some s) = true := by
  simp [isTruthy, hs]

theorem addVisited_mem_of_mem {visitedHashes : List String} {p : ProofRecord}
    {x : String} (hx : x ∈ visitedHashes) : x ∈ addVisited visitedHashes p := by
  simp only [addVisited, List.mem_append]
  exact Or.inl (Or.inl hx)

theorem addVisited_orig_mem {visitedHashes : List String} {p : ProofRecord}
    {o : String} (h : p.originalImageHash = some o) :
    o ∈ addVisited visitedHashes p := by
  simp only [addVisited, h, List.mem_append]
  exact Or.inl (Or.inr (by simp))

theorem privateImageStop_cases (lineageNodes : List LineageNode)
    (currentHash : String) (level : Nat) :
    privateImageStop lineageNodes currentHash level = .stop lineageNodes false
    ∨ ∃ p, privateImageStop lineageNodes currentHash level =
        .stop (lineageNodes ++ [{ proof := p, level := level, isOrphan := true }])
          true := by
  unfold privateImageStop
  by_cases h : currentHash = ""
  · rw [if_pos h]; exact Or.inl rfl
  · rw [if_neg h]; exact Or.inr ⟨_, rfl⟩

/-- Exhaustive description of one loop iteration: it throws, stops without
appending (with `foundParent = false`), stops after appending one orphan node
at the current level (with `foundParent = true`), or accepts a parent record:
it appends it as a non-orphan node at the current level, extends the visited
set, and continues at the parent's (truthy, unvisited) original hash with the
level incremented. -/
theorem loopStep_cases (lookup : String → LookupOutcome)
    (lineageNodes : List LineageNode) (visitedHashes : List String)
    (currentHash : String) (level : Nat) :
    loopStep lookup lineageNodes visitedHashes currentHash level = .threw
    ∨ loopStep lookup lineageNodes visitedHashes currentHash level =
        .stop lineageNodes false
    ∨ (∃ p, loopStep lookup lineageNodes visitedHashes currentHash level =
        .stop (lineageNodes ++ [{ proof := p, level := level, isOrphan := true }])
          true)
    ∨ (∃ p o d, loopStep lookup lineageNodes visitedHashes currentHash level =
        .next (lineageNodes ++ [{ proof := p, level := level, isOrphan := false }])
          (addVisited visitedHashes p) o (level + 1)
        ∧ p.originalImageHash = some o ∧ o ∉ visitedHashes ∧ o ≠ ""
        ∧ lookup currentHash = .result true (some d) ∧ p ∈ d) := by
  have hpriv := privateImageStop_cases lineageNodes currentHash level
  unfold loopStep
  split
  · exact Or.inl rfl
  · split
    · split
      · rcases hpriv with h | ⟨p, h⟩
        · exact Or.inr (Or.inl h)
        · exact Or.inr (Or.inr (Or.inl ⟨p, h⟩))
      · split
        · split
          · split
            · exact Or.inr (Or.inr (Or.inl ⟨_, rfl⟩))
            · rename_i d hlk hd xf parentProof hf hTruthy hmem
              cases horig : parentProof.originalImageHash with
              | none =>
                rw [horig] at hTruthy
                simp [isTruthy] at hTruthy
              | some s =>
                have hs : s ≠ "" := by
                  intro h0
                  rw [horig, h0] at hTruthy
                  simp [isTruthy] at hTruthy
                simp only [horig, Option.getD_some] at hmem ⊢
                exact Or.inr (Or.inr (Or.inr ⟨parentProof, s, d, rfl, horig,
                  hmem, hs, hlk, List.mem_of_find?_eq_some hf⟩))
          · exact Or.inr (Or.inl rfl)
        · exact Or.inr (Or.inl rfl)
    · rcases hpriv with h | ⟨p, h⟩
      · exact Or.inr (Or.inl h)
      · exact Or.inr (Or.inr (Or.inl ⟨p, h⟩))

/-! ## The walk only ever appends nodes -/

theorem loopRun_extends (lookup : String → LookupOutcome) :
    ∀ (fuel : Nat) (nodes : List LineageNode) (visited : List String)
      (currentHash : String) (level : Nat) (fp : Bool)
      (ns : List LineageNode) (fp' : Bool),
      loopRun lookup fuel nodes visited currentHash level fp = .ok ns fp' →
      ∃ tail, ns = nodes ++ tail := by
  intro fuel
  induction fuel with
  | zero =>
    intro nodes visited currentHash level fp ns fp' h
    simp [loopRun] at h
  | succ n ih =>
    intro nodes visited currentHash level fp ns fp' h
    rw [loopRun] at h
    by_cases hch : currentHash = ""
    · rw [if_pos hch] at h
      simp only [TravOut.ok.injEq] at h
      exact ⟨[], by rw [← h.1]; simp⟩
    · rw [if_neg hch] at h
      rcases loopStep_cases lookup nodes visited currentHash level with
        hc | hc | ⟨p, hc⟩ | ⟨p, o, d, hc, _, _, _, _, _⟩ <;> rw [hc] at h
      · simp at h
      · simp only [TravOut.ok.injEq] at h
        exact ⟨[], by rw [← h.1]; simp⟩
      · simp only [TravOut.ok.injEq] at h
        exact ⟨_, h.1.symm⟩
      · obtain ⟨tail, htail⟩ := ih _ _ _ _ _ _ _ h
        exact ⟨_, by rw [htail, List.append_assoc]⟩

theorem backfill_extends (ns : List LineageNode) (fp : Bool) :
    ∃ tail, backfill ns fp = ns ++ tail := by
  unfold backfill
  cases ns.getLast? with
  | none => exact ⟨[], by simp⟩
  | some lastNode =>
    dsimp only
    by_cases hc : (!fp && isTruthy lastNode.proof.originalImageHash) = true
    · rw [if_pos hc]; exact ⟨_, rfl⟩
    · rw [if_neg hc]; exact ⟨[], by simp⟩

theorem backfill_of_foundParent (ns : List LineageNode) :
    backfill ns true = ns := by
  unfold backfill
  cases ns.getLast? <;> simp

/-- Inversion of a completed hook run: either the starting proof has no truthy
original hash and the published lineage is the single starting node, or the
loop completed from the initial state and the published lineage is its result
with the backfill applied. -/
theorem useImageLineage_ok_cases (lookup : String → LookupOutcome) (fuel : Nat)
    (currentProof : ProofRecord) (ns : List LineageNode)
    (h : useImageLineage lookup fuel currentProof = .ok ns) :
    (isTruthy currentProof.originalImageHash = false
      ∧ ns = initialNodes currentProof)
    ∨ ∃ ns' fp, isTruthy currentProof.originalImageHash = true
        ∧ loopRun lookup fuel (initialNodes currentProof)
            (initialVisited currentProof)
            (currentProof.originalImageHash.getD "") 1 false = .ok ns' fp
        ∧ ns = backfill ns' fp := by
  unfold useImageLineage traverseLineage at h
  by_cases ht : isTruthy currentProof.originalImageHash = false
  · rw [if_pos ht] at h
    simp only [HookOut.ok.injEq] at h
    exact Or.inl ⟨ht, h.symm⟩
  · rw [if_neg ht] at h
    cases hr : loopRun lookup fuel (initialNodes currentProof)
        (initialVisited currentProof)
        (currentProof.originalImageHash.getD "") 1 false with
    | threw => rw [hr] at h; simp at h
    | fuelOut => rw [hr] at h; simp at h
    | ok ns' fp =>
      rw [hr] at h
      simp only [HookOut.ok.injEq] at h
      exact Or.inr ⟨ns', fp, by simpa using ht, rfl, h.symm⟩

/-! ## Level bookkeeping: levels are consecutive from the head -/

def levelsFrom : Nat → List LineageNode → Prop
  | _, [] => True
  | k, n :: rest => n.level = k ∧ levelsFrom (k + 1) rest

theorem levelsFrom_append_singleton (x : LineageNode) :
    ∀ (l : List LineageNode) (k : Nat),
      levelsFrom k (l ++ [x]) ↔ (levelsFrom k l ∧ x.level = k + l.length) := by
  intro l
  induction l with
  | nil => intro k; simp [levelsFrom]
  | cons a t ih =>
    intro k
    rw [List.cons_append]
    simp only [levelsFrom]
    rw [ih (k + 1)]
    simp only [List.length_cons]
    constructor
    · rintro ⟨h1, h2, h3⟩
      exact ⟨⟨h1, h2⟩, by omega⟩
    · rintro ⟨⟨h1, h2⟩, h3⟩
      exact ⟨h1, h2, by omega⟩

theorem levelsFrom_getLast :
    ∀ (l : List LineageNode) (k : Nat) (lastNode : LineageNode),
      levelsFrom k l → l.getLast? = some lastNode →
      lastNode.level + 1 = k + l.length := by
  intro l
  induction l with
  | nil => intro k lastNode _ h; simp at h
  | cons a t ih =>
    intro k lastNode hlv hlast
    cases t with
    | nil =>
      simp only [List.getLast?_singleton, Option.some.injEq] at hlast
      subst hlast
      simp only [levelsFrom] at hlv
      simp [hlv.1]
    | cons b t2 =>
      rw [List.getLast?_cons_cons] at hlast
      have hrec := ih (k + 1) lastNode hlv.2 hlast
      simp only [List.length_cons] at hrec ⊢
      omega

theorem levelsFrom_get :
    ∀ (l : List LineageNode) (k : Nat), levelsFrom k l →
      ∀ (i : Nat) (hi : i < l.length), (l.get ⟨i, hi⟩).level = k + i := by
  intro l
  induction l with
  | nil => intro k _ i hi; simp at hi
  | cons a t ih =>
    intro k hlv i hi
    cases i with
    | zero => simpa using hlv.1
    | succ j =>
      have hrec := ih (k + 1) hlv.2 j (by simpa using hi)
      simp only [List.get_cons_succ] at *
      omega

theorem loopRun_levels (lookup : String → LookupOutcome) :
    ∀ (fuel : Nat) (nodes : List LineageNode) (visited : List String)
      (currentHash : String) (level : Nat) (fp : Bool)
      (ns : List LineageNode) (fp' : Bool),
      levelsFrom 0 nodes → level = nodes.length →
      loopRun lookup fuel nodes visited currentHash level fp = .ok ns fp' →
      levelsFrom 0 ns := by
  intro fuel
  induction fuel with
  | zero =>
    intro nodes visited currentHash level fp ns fp' _ _ h
    simp [loopRun] at h
  | succ n ih =>
    intro nodes visited currentHash level fp ns fp' hlv hlen h
    rw [loopRun] at h
    by_cases hch : currentHash = ""
    · rw [if_pos hch] at h
      simp only [TravOut.ok.injEq] at h
      rw [← h.1]; exact hlv
    · rw [if_neg hch] at h
      rcases loopStep_cases lookup nodes visited currentHash level with
        hc | hc | ⟨p, hc⟩ | ⟨p, o, d, hc, _, _, _, _, _⟩ <;> rw [hc] at h
      · simp at h
      · simp only [TravOut.ok.injEq] at h
        rw [← h.1]; exact hlv
      · simp only [TravOut.ok.injEq] at h
        rw [← h.1]
        rw [levelsFrom_append_singleton]
        exact ⟨hlv, by simp [hlen]⟩
      · refine ih _ _ _ _ _ _ _ ?_ ?_ h
        · rw [levelsFrom_append_singleton]
          exact ⟨hlv, by simp [hlen]⟩
        · simp [hlen]

theorem backfill_levels (ns : List LineageNode) (fp : Bool)
    (h : levelsFrom 0 ns) : levelsFrom 0 (backfill ns fp) := by
  unfold backfill
  cases hl : ns.getLast? with
  | none => exact h
  | some lastNode =>
    dsimp only
    by_cases hc : (!fp && isTruthy lastNode.proof.originalImageHash) = true
    · rw [if_pos hc]
      rw [levelsFrom_append_singleton]
      refine ⟨h, ?_⟩
      have hlast := levelsFrom_getLast ns 0 lastNode h hl
      show lastNode.level + 1 = 0 + ns.length
      omega
    · rw [if_neg hc]; exact h

theorem useImageLineage_levels (lookup : String → LookupOutcome) (fuel : Nat)
    (currentProof : ProofRecord) (ns : List LineageNode)
    (h : useImageLineage lookup fuel currentProof = .ok ns) :
    levelsFrom 0 ns := by
  rcases useImageLineage_ok_cases lookup fuel currentProof ns h with
    ⟨_, hns⟩ | ⟨ns', fp, _, hr, hns⟩
  · rw [hns]; simp [initialNodes, levelsFrom]
  · rw [hns]
    exact backfill_levels ns' fp
      (loopRun_levels lookup fuel _ _ _ _ _ _ _
        (by simp [initialNodes, levelsFrom]) rfl hr)

/-! ## Original hashes of non-orphan nodes -/

def nonOrphanOrigs (ns : List LineageNode) : List String :=
  ns.filterMap (fun n => if n.isOrphan then none else n.proof.originalImageHash)

theorem nonOrphanOrigs_append_orphan (ns : List LineageNode) (x : LineageNode)
    (hx : x.isOrphan = true) :
    nonOrphanOrigs (ns ++ [x]) = nonOrphanOrigs ns := by
  unfold nonOrphanOrigs
  rw [List.filterMap_append]
  simp [hx]

theorem nonOrphanOrigs_append_nonOrphan (ns : List LineageNode)
    (x : LineageNode) (o : String) (hx : x.isOrphan = false)
    (ho : x.proof.originalImageHash = some o) :
    nonOrphanOrigs (ns ++ [x]) = nonOrphanOrigs ns ++ [o] := by
  unfold nonOrphanOrigs
  rw [List.filterMap_append]
  simp [hx, ho]

theorem nonOrphanOrigs_initial (S : ProofRecord) :
    nonOrphanOrigs (initialNodes S) = S.originalImageHash.toList := by
  cases h : S.originalImageHash <;> simp [nonOrphanOrigs, initialNodes, h]

theorem nonOrphanOrigs_backfill (ns : List LineageNode) (fp : Bool) :
    nonOrphanOrigs (backfill ns fp) = nonOrphanOrigs ns := by
  unfold backfill
  cases ns.getLast? with
  | none => rfl
  | some lastNode =>
    dsimp only
    by_cases hc : (!fp && isTruthy lastNode.proof.originalImageHash) = true
    · rw [if_pos hc]
      exact nonOrphanOrigs_append_orphan _ _ rfl
    · rw [if_neg hc]

theorem loopRun_nodup (lookup : String → LookupOutcome) :
    ∀ (fuel : Nat) (nodes : List LineageNode) (visited : List String)
      (currentHash : String) (level : Nat) (fp : Bool)
      (ns : List LineageNode) (fp' : Bool),
      (nonOrphanOrigs nodes).Nodup →
      (∀ o ∈ nonOrphanOrigs nodes, o = "" ∨ o ∈ visited) →
      loopRun lookup fuel nodes visited currentHash level fp = .ok ns fp' →
      (nonOrphanOrigs ns).Nodup := by
  intro fuel
  induction fuel with
  | zero =>
    intro nodes visited currentHash level fp ns fp' _ _ h
    simp [loopRun] at h
  | succ n ih =>
    intro nodes visited currentHash level fp ns fp' hnd hsub h
    rw [loopRun] at h
    by_cases hch : currentHash = ""
    · rw [if_pos hch] at h
      simp only [TravOut.ok.injEq] at h
      rw [← h.1]; exact hnd
    · rw [if_neg hch] at h
      rcases loopStep_cases lookup nodes visited currentHash level with
        hc | hc | ⟨p, hc⟩ | ⟨p, o, d, hc, ho, hnv, hne, _, _⟩ <;> rw [hc] at h
      · simp at h
      · simp only [TravOut.ok.injEq] at h
        rw [← h.1]; exact hnd
      · simp only [TravOut.ok.injEq] at h
        rw [← h.1, nonOrphanOrigs_append_orphan _ _ rfl]
        exact hnd
      · refine ih _ _ _ _ _ _ _ ?_ ?_ h
        · rw [nonOrphanOrigs_append_nonOrphan _ _ o rfl ho]
          rw [List.nodup_append]
          refine ⟨hnd, List.nodup_singleton o, ?_⟩
          intro x hx hxo
          have hxo' : x = o := List.mem_singleton.mp hxo
          subst hxo'
          rcases hsub x hx with h0 | h0
          · exact hne h0
          · exact hnv h0
        · intro x hx
          rw [nonOrphanOrigs_append_nonOrphan _ _ o rfl ho] at hx
          rcases List.mem_append.mp hx with hx' | hx'
          · rcases hsub x hx' with h0 | h0
            · exact Or.inl h0
            · exact Or.inr (addVisited_mem_of_mem h0)
          · have : x = o := List.mem_singleton.mp hx'
            subst this
            exact Or.inr (addVisited_orig_mem ho)

theorem useImageLineage_nodup (lookup : String → LookupOutcome) (fuel : Nat)
    (currentProof : ProofRecord) (ns : List LineageNode)
    (h : useImageLineage lookup fuel currentProof = .ok ns) :
    (nonOrphanOrigs ns).Nodup := by
  rcases useImageLineage_ok_cases lookup fuel currentProof ns h with
    ⟨_, hns⟩ | ⟨ns', fp, _, hr, hns⟩
  · rw [hns, nonOrphanOrigs_initial]
    cases currentProof.originalImageHash <;> simp
  · rw [hns, nonOrphanOrigs_backfill]
    refine loopRun_nodup lookup fuel _ _ _ _ _ _ _ ?_ ?_ hr
    · rw [nonOrphanOrigs_initial]
      cases currentProof.originalImageHash <;> simp
    · intro o hmem
      rw [nonOrphanOrigs_initial] at hmem
      cases horig : currentProof.originalImageHash with
      | none => rw [horig] at hmem; simp at hmem
      | some s =>
        rw [horig] at hmem
        simp only [Option.toList_some, List.mem_singleton] at hmem
        subst hmem
        by_cases hs : o = ""
        · exact Or.inl hs
        · refine Or.inr ?_
          unfold initialVisited
          rw [horig]
          rw [isTruthy_some hs]
          simp

/-! ## Orphan nodes only ever occur at the end -/

theorem loopRun_orphanStructure (lookup : String → LookupOutcome) :
    ∀ (fuel : Nat) (nodes : List LineageNode) (visited : List String)
      (currentHash : String) (level : Nat) (fp : Bool)
      (ns : List LineageNode) (fp' : Bool),
      (∀ n ∈ nodes, n.isOrphan = false) →
      loopRun lookup fuel nodes visited currentHash level fp = .ok ns fp' →
      (fp' = false → ∀ n ∈ ns, n.isOrphan = false)
      ∧ (∀ n ∈ ns.dropLast, n.isOrphan = false) := by
  intro fuel
  induction fuel with
  | zero =>
    intro nodes visited currentHash level fp ns fp' _ h
    simp [loopRun] at h
  | succ n ih =>
    intro nodes visited currentHash level fp ns fp' hall h
    rw [loopRun] at h
    by_cases hch : currentHash = ""
    · rw [if_pos hch] at h
      simp only [TravOut.ok.injEq] at h
      rw [← h.1]
      exact ⟨fun _ => hall, fun x hx => hall x (List.dropLast_subset _ hx)⟩
    · rw [if_neg hch] at h
      rcases loopStep_cases lookup nodes visited currentHash level with
        hc | hc | ⟨p, hc⟩ | ⟨p, o, d, hc, _, _, _, _, _⟩ <;> rw [hc] at h
      · simp at h
      · simp only [TravOut.ok.injEq] at h
        rw [← h.1]
        exact ⟨fun _ => hall, fun x hx => hall x (List.dropLast_subset _ hx)⟩
      · simp only [TravOut.ok.injEq] at h
        rw [← h.1]
        constructor
        · intro hfp'
          rw [← h.2] at hfp'
          simp at hfp'
        · rw [List.dropLast_concat]
          exact hall
      · refine ih _ _ _ _ _ _ _ ?_ h
        intro x hx
        rcases List.mem_append.mp hx with hx' | hx'
        · exact hall x hx'
        · rw [List.mem_singleton.mp hx']

theorem backfill_dropLast_nonOrphan (ns : List LineageNode)
    (hall : ∀ n ∈ ns, n.isOrphan = false) :
    ∀ n ∈ (backfill ns false).dropLast, n.isOrphan = false := by
  unfold backfill
  cases ns.getLast? with
  | none => exact fun x hx => hall x (List.dropLast_subset _ hx)
  | some lastNode =>
    dsimp only
    by_cases hc : (!false && isTruthy lastNode.proof.originalImageHash) = true
    · rw [if_pos hc]
      rw [List.dropLast_concat]
      exact hall
    · rw [if_neg hc]
      exact fun x hx => hall x (List.dropLast_subset _ hx)

theorem useImageLineage_orphanLast (lookup : String → LookupOutcome)
    (fuel : Nat) (currentProof : ProofRecord) (ns : List LineageNode)
    (h : useImageLineage lookup fuel currentProof = .ok ns) :
    ∀ n ∈ ns.dropLast, n.isOrphan = false := by
  rcases useImageLineage_ok_cases lookup fuel currentProof ns h with
    ⟨_, hns⟩ | ⟨ns', fp, _, hr, hns⟩
  · rw [hns]
    simp [initialNodes]
  · have hstruct := loopRun_orphanStructure lookup fuel _ _ _ _ _ _ _
      (by simp [initialNodes]) hr
    cases fp with
    | true =>
      rw [hns, backfill_of_foundParent]
      exact hstruct.2
    | false =>
      rw [hns]
      exact backfill_dropLast_nonOrphan ns' (hstruct.1 rfl)

theorem filter_orphan_length_le_one (ns : List LineageNode)
    (h : ∀ n ∈ ns.dropLast, n.isOrphan = false) :
    (ns.filter (fun n => n.isOrphan)).length ≤ 1 := by
  rcases List.eq_nil_or_concat ns with hns | ⟨pre, a, hns⟩
  · subst hns; simp
  · subst hns
    rw [List.concat_eq_append] at h ⊢
    rw [List.filter_append]
    rw [List.dropLast_concat] at h
    have hpre : pre.filter (fun n => n.isOrphan) = [] :=
      List.filter_eq_nil_iff.mpr (by intro x hx; simp [h x hx])
    rw [hpre]
    cases ha : a.isOrphan <;> simp [ha]

/-! ## Termination for finite stores -/

/-- The lookup draws from a finite store: every original hash carried by a
record it ever returns successfully lies in the finite list `H`. -/
def storeBound (lookup : String → LookupOutcome) (H : List String) : Prop :=
  ∀ h d, lookup h = .result true (some d) →
    ∀ p ∈ d, ∀ o, p.originalImageHash = some o → o ∈ H

theorem length_filter_mono {p q : String → Bool}
    (hpq : ∀ x, q x = true → p x = true) :
    ∀ (l : List String), (l.filter q).length ≤ (l.filter p).length := by
  intro l
  induction l with
  | nil => simp
  | cons a t ih =>
    by_cases hq : q a = true
    · rw [List.filter_cons_of_pos hq, List.filter_cons_of_pos (hpq a hq)]
      simpa using ih
    · rw [List.filter_cons_of_neg (by simpa using hq)]
      by_cases hp : p a = true
      · rw [List.filter_cons_of_pos hp]
        simp only [List.length_cons]
        omega
      · rw [List.filter_cons_of_neg (by simpa using hp)]
        exact ih

theorem length_filter_lt {p q : String → Bool} :
    ∀ (l : List String) (a : String), (∀ x, q x = true → p x = true) →
      a ∈ l → p a = true → q a = false →
      (l.filter q).length < (l.filter p).length := by
  intro l
  induction l with
  | nil => intro a _ ha _ _; simp at ha
  | cons b t ih =>
    intro a hpq ha hpa hqa
    rcases List.mem_cons.mp ha with rfl | hat
    · rw [List.filter_cons_of_neg (by simp [hqa]), List.filter_cons_of_pos hpa]
      have hmono := length_filter_mono hpq t
      simp only [List.length_cons]
      omega
    · by_cases hqb : q b = true
      · rw [List.filter_cons_of_pos hqb, List.filter_cons_of_pos (hpq b hqb)]
        have hrec := ih a hpq hat hpa hqa
        simp only [List.length_cons]
        omega
      · rw [List.filter_cons_of_neg (by simpa using hqb)]
        by_cases hpb : p b = true
        · rw [List.filter_cons_of_pos hpb]
          have hrec := ih a hpq hat hpa hqa
          simp only [List.length_cons]
          omega
        · rw [List.filter_cons_of_neg (by simpa using hpb)]
          exact ih a hpq hat hpa hqa

/-- The loop cannot exhaust its fuel when the fuel exceeds the number of
hashes of the store not yet visited: every continuing iteration moves a fresh
store hash into the visited set. -/
theorem loopRun_no_fuelOut (lookup : String → LookupOutcome) (H : List String)
    (hH : storeBound lookup H) :
    ∀ (fuel : Nat) (nodes : List LineageNode) (visited : List String)
      (currentHash : String) (level : Nat) (fp : Bool),
      (H.filter (fun x => decide (x ∉ visited))).length < fuel →
      loopRun lookup fuel nodes visited currentHash level fp ≠ .fuelOut := by
  intro fuel
  induction fuel with
  | zero => intro nodes visited currentHash level fp hlt; omega
  | succ n ih =>
    intro nodes visited currentHash level fp hlt
    rw [loopRun]
    by_cases hch : currentHash = ""
    · rw [if_pos hch]; simp
    · rw [if_neg hch]
      rcases loopStep_cases lookup nodes visited currentHash level with
        hc | hc | ⟨p, hc⟩ | ⟨p, o, d, hc, ho, hnv, hne, hlk, hpd⟩ <;> rw [hc]
      · simp
      · simp
      · simp
      · dsimp only
        refine ih _ _ _ _ _ ?_
        have hoH : o ∈ H := hH currentHash d hlk p hpd o ho
        have hlt2 : (H.filter (fun x => decide (x ∉ addVisited visited p))).length
            < (H.filter (fun x => decide (x ∉ visited))).length := by
          refine length_filter_lt H o ?_ hoH ?_ ?_
          · intro x hx
            simp only [decide_eq_true_eq] at hx ⊢
            intro hmem
            exact hx (addVisited_mem_of_mem hmem)
          · simpa using hnv
          · simp [addVisited_orig_mem ho]
        omega

theorem useImageLineage_no_fuelOut (lookup : String → LookupOutcome)
    (H : List String) (currentProof : ProofRecord) (hH : storeBound lookup H) :
    useImageLineage lookup (H.length + 1) currentProof ≠ .fuelOut := by
  unfold useImageLineage traverseLineage
  by_cases ht : isTruthy currentProof.originalImageHash = false
  · rw [if_pos ht]; simp
  · rw [if_neg ht]
    have hrun := loopRun_no_fuelOut lookup H hH (H.length + 1)
      (initialNodes currentProof) (initialVisited currentProof)
      (currentProof.originalImageHash.getD "") 1 false
      (by
        have hle := List.length_filter_le
          (fun x => decide (x ∉ initialVisited currentProof)) H
        omega)
    cases hr : loopRun lookup (H.length + 1) (initialNodes currentProof)
        (initialVisited currentProof)
        (currentProof.originalImageHash.getD "") 1 false with
    | ok ns fp => simp
    | threw => simp
    | fuelOut => exact absurd hr hrun

/-! ## Individual branches of one loop iteration -/

theorem loopStep_throws (lookup : String → LookupOutcome)
    (nodes : List LineageNode) (visited : List String) (currentHash : String)
    (level : Nat) (hlk : lookup currentHash = .throws) :
    loopStep lookup nodes visited currentHash level = .threw := by
  unfold loopStep
  rw [hlk]

theorem loopStep_accept (lookup : String → LookupOutcome)
    (nodes : List LineageNode) (visited : List String) (currentHash : String)
    (level : Nat) (d : List ProofRecord) (p : ProofRecord) (o : String)
    (hlk : lookup currentHash = .result true (some d)) (hd : d ≠ [])
    (hf : d.find? (fun q => q.transformedImageHash == some currentHash) = some p)
    (ho : p.originalImageHash = some o) (hne : o ≠ "") (hnv : o ∉ visited) :
    loopStep lookup nodes visited currentHash level =
      .next (nodes ++ [{ proof := p, level := level, isOrphan := false }])
        (addVisited visited p) o (level + 1) := by
  unfold loopStep
  rw [hlk]
  dsimp only
  rw [if_neg hd, hf]
  dsimp only
  rw [ho, isTruthy_some hne]
  rw [if_pos rfl]
  simp only [Option.getD_some]
  rw [if_neg hnv]

theorem loopStep_circular (lookup : String → LookupOutcome)
    (nodes : List LineageNode) (visited : List String) (currentHash : String)
    (level : Nat) (d : List ProofRecord) (p : ProofRecord) (o : String)
    (hlk : lookup currentHash = .result true (some d)) (hd : d ≠ [])
    (hf : d.find? (fun q => q.transformedImageHash == some currentHash) = some p)
    (ho : p.originalImageHash = some o) (hne : o ≠ "") (hv : o ∈ visited) :
    loopStep lookup nodes visited currentHash level =
      .stop (nodes ++ [{ proof := p, level := level, isOrphan := true }])
        true := by
  unfold loopStep
  rw [hlk]
  dsimp only
  rw [if_neg hd, hf]
  dsimp only
  rw [ho, isTruthy_some hne]
  rw [if_pos rfl]
  simp only [Option.getD_some]
  rw [if_pos hv]

theorem loopStep_origAbsent (lookup : String → LookupOutcome)
    (nodes : List LineageNode) (visited : List String) (currentHash : String)
    (level : Nat) (d : List ProofRecord) (p : ProofRecord)
    (hlk : lookup currentHash = .result true (some d)) (hd : d ≠ [])
    (hf : d.find? (fun q => q.transformedImageHash == some currentHash) = some p)
    (ho : p.originalImageHash = none) :
    loopStep lookup nodes visited currentHash level = .stop nodes false := by
  unfold loopStep
  rw [hlk]
  dsimp only
  rw [if_neg hd, hf]
  dsimp only
  rw [ho]
  simp [isTruthy]

theorem loopStep_noMatch (lookup : String → LookupOutcome)
    (nodes : List LineageNode) (visited : List String) (currentHash : String)
    (level : Nat) (d : List ProofRecord)
    (hlk : lookup currentHash = .result true (some d)) (hd : d ≠ [])
    (hf : d.find? (fun q => q.transformedImageHash == some currentHash) = none) :
    loopStep lookup nodes visited currentHash level = .stop nodes false := by
  unfold loopStep
  rw [hlk]
  dsimp only
  rw [if_neg hd, hf]

theorem loopStep_noRecords (lookup : String → LookupOutcome)
    (nodes : List LineageNode) (visited : List String) (currentHash : String)
    (level : Nat) (hch : currentHash ≠ "")
    (hlk : lookup currentHash = .result true (some [])) :
    loopStep lookup nodes visited currentHash level =
      .stop (nodes ++
        [{ proof := createOrphanProof currentHash "Private Image",
           level := level, isOrphan := true }]) true := by
  unfold loopStep
  rw [hlk]
  dsimp only
  rw [if_pos rfl]
  unfold privateImageStop
  rw [if_neg hch]

theorem loopRun_succ_next (lookup : String → LookupOutcome) (n : Nat)
    (nodes : List LineageNode) (visited : List String) (currentHash : String)
    (level : Nat) (fp : Bool) (ns : List LineageNode) (vs : List String)
    (h : String) (l : Nat) (hch : currentHash ≠ "")
    (hstep : loopStep lookup nodes visited currentHash level = .next ns vs h l) :
    loopRun lookup (n + 1) nodes visited currentHash level fp =
      loopRun lookup n ns vs h l true := by
  rw [loopRun, if_neg hch, hstep]

theorem loopRun_succ_stop (lookup : String → LookupOutcome) (n : Nat)
    (nodes : List LineageNode) (visited : List String) (currentHash : String)
    (level : Nat) (fp : Bool) (ns : List LineageNode) (fp' : Bool)
    (hch : currentHash ≠ "")
    (hstep : loopStep lookup nodes visited currentHash level = .stop ns fp') :
    loopRun lookup (n + 1) nodes visited currentHash level fp = .ok ns fp' := by
  rw [loopRun, if_neg hch, hstep]

theorem loopRun_succ_threw (lookup : String → LookupOutcome) (n : Nat)
    (nodes : List LineageNode) (visited : List String) (currentHash : String)
    (level : Nat) (fp : Bool) (hch : currentHash ≠ "")
    (hstep : loopStep lookup nodes visited currentHash level = .threw) :
    loopRun lookup (n + 1) nodes visited currentHash level fp = .threw := by
  rw [loopRun, if_neg hch, hstep]

theorem not_mem_initialVisited (S : ProofRecord) (x : String)
    (h1 : S.originalImageHash ≠ some x) (h2 : S.transformedImageHash ≠ some x) :
    x ∉ initialVisited S := by
  intro hx
  unfold initialVisited at hx
  rcases List.mem_append.mp hx with hx' | hx'
  · cases ho : S.originalImageHash with
    | none => rw [ho] at hx'; simp [isTruthy] at hx'
    | some s =>
      rw [ho] at hx'
      by_cases hs : s = ""
      · simp [isTruthy, hs] at hx'
      · rw [isTruthy_some hs] at hx'
        simp at hx'
        subst hx'
        exact h1 ho
  · cases ho : S.transformedImageHash with
    | none => rw [ho] at hx'; simp [isTruthy] at hx'
    | some s =>
      rw [ho] at hx'
      by_cases hs : s = ""
      · simp [isTruthy, hs] at hx'
      · rw [isTruthy_some hs] at hx'
        simp at hx'
        subst hx'
        exact h2 ho

/-! ## Hook-level helpers -/

theorem mem_initialVisited_orig (S : ProofRecord) (o : String)
    (ho : S.originalImageHash = some o) (hne : o ≠ "") :
    o ∈ initialVisited S := by
  unfold initialVisited
  rw [ho, isTruthy_some hne]
  simp

theorem useImageLineage_of_loopRun (lookup : String → LookupOutcome)
    (fuel : Nat) (S : ProofRecord) (h0 : String) (ns : List LineageNode)
    (fp : Bool) (hS : S.originalImageHash = some h0) (hne : h0 ≠ "")
    (hr : loopRun lookup fuel (initialNodes S) (initialVisited S) h0 1 false =
      .ok ns fp) :
    useImageLineage lookup fuel S = .ok (backfill ns fp) := by
  unfold useImageLineage traverseLineage
  rw [hS, isTruthy_some hne]
  rw [if_neg (by simp)]
  simp only [Option.getD_some]
  rw [hr]

theorem useImageLineage_extends (lookup : String → LookupOutcome) (fuel : Nat)
    (S : ProofRecord) (ns : List LineageNode)
    (h : useImageLineage lookup fuel S = .ok ns) :
    ∃ rest, ns = initialNodes S ++ rest := by
  rcases useImageLineage_ok_cases lookup fuel S ns h with
    ⟨_, hns⟩ | ⟨ns', fp, _, hr, hns⟩
  · exact ⟨[], by simp [hns]⟩
  · obtain ⟨t1, ht1⟩ := loopRun_extends lookup fuel _ _ _ _ _ _ _ hr
    obtain ⟨t2, ht2⟩ := backfill_extends ns' fp
    exact ⟨t1 ++ t2, by rw [hns, ht2, ht1, List.append_assoc]⟩

/-! ## Concrete records and lookups used by witnesses and counterexamples -/

def exStart1 : ProofRecord := { id := some "s1", originalImageHash := some "h1" }

def exLookupFail : String → LookupOutcome := fun _ => .result false (some [])

def exThrowLookup : String → LookupOutcome := fun _ => .throws

def exEmptyLookup : String → LookupOutcome := fun _ => .result true (some [])

def exProducerNoOrig : ProofRecord :=
  { id := some "p2", imageName := some "P2", transformedImageHash := some "h1" }

def exLookupC2 : String → LookupOutcome := fun h =>
  if h = "h1" then .result true (some [exProducerNoOrig])
  else .result true (some [])

def exProducerVisited : ProofRecord :=
  { id := some "pv", originalImageHash := some "hy",
    transformedImageHash := some "hx" }

def exLookupC2w : String → LookupOutcome :=
  fun _ => .result true (some [exProducerVisited])

def exRecNoMatch : ProofRecord :=
  { id := some "q3", originalImageHash := some "hq",
    transformedImageHash := some "hX" }

def exLookupC3 : String → LookupOutcome := fun h =>
  if h = "h1" then .result true (some [exRecNoMatch])
  else .result true (some [])

def exPA : ProofRecord :=
  { id := some "pa", originalImageHash := some "hB",
    transformedImageHash := some "hA" }

def exPB : ProofRecord :=
  { id := some "pb", originalImageHash := some "hA",
    transformedImageHash := some "hB" }

def exStartCyc : ProofRecord :=
  { id := some "s4", originalImageHash := some "hA",
    transformedImageHash := some "hB" }

def exStartCycOk : ProofRecord :=
  { id := some "s5", originalImageHash := some "hA" }

def exLookupCyc : String → LookupOutcome := fun h =>
  if h = "hA" then .result true (some [exPA])
  else if h = "hB" then .result true (some [exPB])
  else .result true (some [])

def exP8 : ProofRecord :=
  { id := some "p8", originalImageHash := some "h0",
    transformedImageHash := some "h1" }

def exStart8x : ProofRecord :=
  { id := some "s8", originalImageHash := some "h1",
    transformedImageHash := some "h0" }

def exLookupC8 : String → LookupOutcome := fun h =>
  if h = "h1" then .result true (some [exP8])
  else .result true (some [])

/-! ## Claims -/

/-- Claim C1, counterexample: a lookup call that returns failure
(`success = false`) does not abort the computation.  With the starting proof
`exStart1` (original hash "h1") and a lookup that always answers
`success = false`, a lineage array is still produced (the failure is treated
like "no records": a private-image orphan is appended), and the hook does not
enter the error state — contradicting the claim that any `success=false`
answer makes the whole computation fail with no lineage array. -/
theorem claim_C1_counterexample :
    useImageLineage exLookupFail 1 exStart1 =
      .ok [{ proof := exStart1, level := 0, isOrphan := false },
           { proof := createOrphanProof "h1" "Private Image",
             level := 1, isOrphan := true }]
    ∧ useImageLineage exLookupFail 1 exStart1 ≠ .errorState := by
  constructor
  · decide
  · decide

/-- Claim C1 (amended): a thrown lookup is fatal to the whole computation —
whenever the traversal ends in a throw, the hook lands in the error state and
publishes no lineage array; in particular a throw on the very first lookup
call (the one for the starting proof's original hash) does so.  (A lookup
returning `success = false`, by contrast, is treated like an empty result;
see the counterexample.) -/
theorem claim_C1_throw_aborts :
    (∀ (lookup : String → LookupOutcome) (fuel : Nat) (S : ProofRecord),
      traverseLineage lookup fuel (initialNodes S) (initialVisited S)
        S.originalImageHash = .threw →
      useImageLineage lookup fuel S = .errorState)
    ∧ (∀ (lookup : String → LookupOutcome) (fuel : Nat) (S : ProofRecord)
        (h0 : String), S.originalImageHash = some h0 → h0 ≠ "" →
        lookup h0 = .throws → 1 ≤ fuel →
        useImageLineage lookup fuel S = .errorState) := by
  constructor
  · intro lookup fuel S h
    unfold useImageLineage
    rw [h]
  · intro lookup fuel S h0 hS hne hlk hfuel
    have htrav : traverseLineage lookup fuel (initialNodes S)
        (initialVisited S) S.originalImageHash = .threw := by
      unfold traverseLineage
      rw [hS, isTruthy_some hne]
      rw [if_neg (by simp)]
      simp only [Option.getD_some]
      cases fuel with
      | zero => omega
      | succ n =>
        have hr := loopRun_succ_threw lookup n (initialNodes S)
          (initialVisited S) h0 1 false hne
          (loopStep_throws lookup (initialNodes S) (initialVisited S) h0 1 hlk)
        rw [hr]
    unfold useImageLineage
    rw [htrav]

/-- Claim C1 witness: a lookup that throws on the first call makes the hook
end in the error state. -/
theorem claim_C1_witness :
    useImageLineage exThrowLookup 1 exStart1 = .errorState :=
  claim_C1_throw_aborts.2 exThrowLookup 1 exStart1 "h1" rfl (by decide) rfl
    (by decide)

/-- Claim C2, counterexample: when the producer record's `originalImageHash`
is absent, the producer record is NOT appended as a terminal orphan.  With
starting hash "h1" and a lookup returning the single producer
`exProducerNoOrig` (transformed hash "h1", no original hash), the walk stops
without appending the producer and the backfill appends a synthesized
"Unknown Parent Image" node instead, contradicting the claim that the
producer record itself is appended at the next level. -/
theorem claim_C2_counterexample :
    useImageLineage exLookupC2 2 exStart1 =
      .ok [{ proof := exStart1, level := 0, isOrphan := false },
           { proof := createOrphanProof "h1" "Unknown Parent Image",
             level := 1, isOrphan := true }]
    ∧ useImageLineage exLookupC2 2 exStart1 ≠
      .ok [{ proof := exStart1, level := 0, isOrphan := false },
           { proof := exProducerNoOrig, level := 1, isOrphan := true }] := by
  constructor
  · decide
  · decide

/-- Claim C2 (amended): in an iteration whose lookup returns records with a
producer record for the current hash, (i) if the producer's
`originalImageHash` is present (truthy) but already in the visited set, the
producer record itself is appended as a terminal orphan node at the
iteration's level and the walk stops; (ii) if the producer's
`originalImageHash` is absent, the walk stops there without appending the
producer record (the post-loop backfill then surfaces the dangling hash). -/
theorem claim_C2_terminal_producer :
    (∀ (lookup : String → LookupOutcome) (nodes : List LineageNode)
        (visited : List String) (currentHash : String) (level : Nat)
        (d : List ProofRecord) (p : ProofRecord) (o : String),
      lookup currentHash = .result true (some d) → d ≠ [] →
      d.find? (fun q => q.transformedImageHash == some currentHash) = some p →
      p.originalImageHash = some o → o ≠ "" → o ∈ visited →
      loopStep lookup nodes visited currentHash level =
        .stop (nodes ++ [{ proof := p, level := level, isOrphan := true }])
          true)
    ∧ (∀ (lookup : String → LookupOutcome) (nodes : List LineageNode)
        (visited : List String) (currentHash : String) (level : Nat)
        (d : List ProofRecord) (p : ProofRecord),
      lookup currentHash = .result true (some d) → d ≠ [] →
      d.find? (fun q => q.transformedImageHash == some currentHash) = some p →
      p.originalImageHash = none →
      loopStep lookup nodes visited currentHash level = .stop nodes false) :=
  ⟨loopStep_circular, loopStep_origAbsent⟩

/-- Claim C2 witness: a producer whose original hash "hy" is already visited
is appended as a terminal orphan at the iteration's level. -/
theorem claim_C2_witness :
    loopStep exLookupC2w [] ["hy"] "hx" 3 =
      .stop [{ proof := exProducerVisited, level := 3, isOrphan := true }]
        true :=
  claim_C2_terminal_producer.1 exLookupC2w [] ["hy"] "hx" 3
    [exProducerVisited] exProducerVisited "hy" rfl (by decide) (by decide) rfl
    (by decide) (by decide)

/-- Claim C3, counterexample: in the dangling-edge scenario (start hash "h1",
lookup("h1") non-empty but with no record whose transformed hash is "h1"),
the synthesized "Unknown Parent Image" orphan is appended at level 1 — one
level past the starting node — not at level 2 as the claim states. -/
theorem claim_C3_counterexample :
    useImageLineage exLookupC3 2 exStart1 =
      .ok [{ proof := exStart1, level := 0, isOrphan := false },
           { proof := createOrphanProof "h1" "Unknown Parent Image",
             level := 1, isOrphan := true }]
    ∧ useImageLineage exLookupC3 2 exStart1 ≠
      .ok [{ proof := exStart1, level := 0, isOrphan := false },
           { proof := createOrphanProof "h1" "Unknown Parent Image",
             level := 2, isOrphan := true }] := by
  constructor
  · decide
  · decide

/-- Claim C3 (amended): for a starting proof with original hash "h1", when
lookup("h1") returns a non-empty record list none of whose records has
transformed hash "h1", the result is the starting node followed by a
synthesized "Unknown Parent Image" orphan whose original hash is "h1",
appended at level 1 (one deeper than the starting node), and the walk stops
there. -/
theorem claim_C3_dangling_edge (lookup : String → LookupOutcome) (fuel : Nat)
    (S : ProofRecord) (d : List ProofRecord)
    (hS : S.originalImageHash = some "h1")
    (hlk : lookup "h1" = .result true (some d)) (hd : d ≠ [])
    (hnomatch : ∀ p ∈ d, p.transformedImageHash ≠ some "h1")
    (hfuel : 1 ≤ fuel) :
    useImageLineage lookup fuel S =
      .ok [{ proof := S, level := 0, isOrphan := false },
           { proof := createOrphanProof "h1" "Unknown Parent Image",
             level := 1, isOrphan := true }] := by
  cases fuel with
  | zero => omega
  | succ n =>
    have hf : d.find? (fun q => q.transformedImageHash == some "h1") = none :=
      List.find?_eq_none.mpr (by
        intro x hx
        simpa using hnomatch x hx)
    have hstep := loopStep_noMatch lookup (initialNodes S) (initialVisited S)
      "h1" 1 d hlk hd hf
    have hr := loopRun_succ_stop lookup n (initialNodes S) (initialVisited S)
      "h1" 1 false (initialNodes S) false (by decide) hstep
    rw [useImageLineage_of_loopRun lookup (n + 1) S "h1" (initialNodes S)
      false hS (by decide) hr]
    have hback : backfill (initialNodes S) false =
        [{ proof := S, level := 0, isOrphan := false },
         { proof := createOrphanProof "h1" "Unknown Parent Image",
           level := 1, isOrphan := true }] := by
      unfold backfill initialNodes
      simp only [List.getLast?_singleton]
      rw [hS, isTruthy_some (by decide)]
      simp
    rw [hback]

/-- Claim C3 witness: a concrete dangling-edge run ends with the unknown
parent orphan at level 1. -/
theorem claim_C3_witness :
    useImageLineage exLookupC3 2 exStart1 =
      .ok [{ proof := exStart1, level := 0, isOrphan := false },
           { proof := createOrphanProof "h1" "Unknown Parent Image",
             level := 1, isOrphan := true }] :=
  claim_C3_dangling_edge exLookupC3 2 exStart1 [exRecNoMatch] rfl rfl
    (by decide) (by decide) (by decide)

/-- Claim C4, counterexample: the claim quantifies over every starting proof
S with original hash "hA", but a starting proof whose own transformed hash is
"hB" pre-populates the visited set with "hB", so the first producer record is
already flagged as visited: the walk stops with its last node at level 1, not
level 2. -/
theorem claim_C4_counterexample :
    useImageLineage exLookupCyc 2 exStartCyc =
      .ok [{ proof := exStartCyc, level := 0, isOrphan := false },
           { proof := exPA, level := 1, isOrphan := true }]
    ∧ useImageLineage exLookupCyc 2 exStartCyc ≠
      .ok [{ proof := exStartCyc, level := 0, isOrphan := false },
           { proof := exPA, level := 1, isOrphan := false },
           { proof := exPB, level := 2, isOrphan := true }] := by
  constructor
  · decide
  · decide

/-- Claim C4 (amended): in the two-record cycle scenario (lookup("hA")
returns the single producer PA with original "hB"/transformed "hA",
lookup("hB") returns the single producer PB with original "hA"/transformed
"hB"), and provided the starting proof's own transformed hash is not "hB",
the walk terminates with exactly the nodes [S at 0, PA at 1, PB at 2] where
the last node (level 2) is flagged as an orphan because "hA" is already
visited.  Fuel 2 — one unit per lookup call — suffices, so no lookup is
performed after the second. -/
theorem claim_C4_cycle (lookup : String → LookupOutcome) (fuel : Nat)
    (S PA PB : ProofRecord)
    (hS : S.originalImageHash = some "hA")
    (hSt : S.transformedImageHash ≠ some "hB")
    (hPAo : PA.originalImageHash = some "hB")
    (hPAt : PA.transformedImageHash = some "hA")
    (hPBo : PB.originalImageHash = some "hA")
    (hPBt : PB.transformedImageHash = some "hB")
    (hlkA : lookup "hA" = .result true (some [PA]))
    (hlkB : lookup "hB" = .result true (some [PB]))
    (hfuel : 2 ≤ fuel) :
    useImageLineage lookup fuel S =
      .ok [{ proof := S, level := 0, isOrphan := false },
           { proof := PA, level := 1, isOrphan := false },
           { proof := PB, level := 2, isOrphan := true }] := by
  obtain ⟨n, rfl⟩ : ∃ n, fuel = n + 2 := ⟨fuel - 2, by omega⟩
  show useImageLineage lookup (n + 1 + 1) S = _
  have hfind1 : [PA].find? (fun q => q.transformedImageHash == some "hA") =
      some PA := List.find?_cons_of_pos _ (by simp [hPAt])
  have hnv1 : "hB" ∉ initialVisited S :=
    not_mem_initialVisited S "hB" (by rw [hS]; simp) hSt
  have hstep1 := loopStep_accept lookup (initialNodes S) (initialVisited S)
    "hA" 1 [PA] PA "hB" hlkA (by simp) hfind1 hPAo (by decide) hnv1
  have hr1 := loopRun_succ_next lookup (n + 1) (initialNodes S)
    (initialVisited S) "hA" 1 false _ _ _ _ (by decide) hstep1
  have hfind2 : [PB].find? (fun q => q.transformedImageHash == some "hB") =
      some PB := List.find?_cons_of_pos _ (by simp [hPBt])
  have hv2 : "hA" ∈ addVisited (initialVisited S) PA :=
    addVisited_mem_of_mem (mem_initialVisited_orig S "hA" hS (by decide))
  have hstep2 := loopStep_circular lookup
    (initialNodes S ++ [{ proof := PA, level := 1, isOrphan := false }])
    (addVisited (initialVisited S) PA) "hB" 2 [PB] PB "hA" hlkB (by simp)
    hfind2 hPBo (by decide) hv2
  have hr2 := loopRun_succ_stop lookup n
    (initialNodes S ++ [{ proof := PA, level := 1, isOrphan := false }])
    (addVisited (initialVisited S) PA) "hB" 2 true _ _ (by decide) hstep2
  have hr : loopRun lookup (n + 1 + 1) (initialNodes S) (initialVisited S)
      "hA" 1 false =
      .ok ((initialNodes S ++
          [{ proof := PA, level := 1, isOrphan := false }]) ++
        [{ proof := PB, level := 2, isOrphan := true }]) true := by
    rw [hr1, hr2]
  rw [useImageLineage_of_loopRun lookup (n + 1 + 1) S "hA" _ _ hS (by decide)
    hr]
  rw [backfill_of_foundParent]
  simp [initialNodes]

/-- Claim C4 witness: the cycle scenario run with a generic starting proof
(no transformed hash) and fuel 2 produces exactly the three-node chain ending
in the circular orphan at level 2. -/
theorem claim_C4_witness :
    useImageLineage exLookupCyc 2 exStartCycOk =
      .ok [{ proof := exStartCycOk, level := 0, isOrphan := false },
           { proof := exPA, level := 1, isOrphan := false },
           { proof := exPB, level := 2, isOrphan := true }] :=
  claim_C4_cycle exLookupCyc 2 exStartCycOk exPA exPB rfl (by decide) rfl rfl
    rfl rfl rfl rfl (by decide)

/-- Claim C5 (confirmed): for every starting proof and every lookup drawn
from a finite store — every original hash carried by a successfully returned
record lies in the finite list `H` — the computation terminates: fuel
`H.length + 1` can never be exhausted, because each continuing iteration
moves a hash of `H` that was not yet visited into the visited set, and the
visited set only grows. -/
theorem claim_C5_termination (lookup : String → LookupOutcome)
    (H : List String) (S : ProofRecord) (hH : storeBound lookup H) :
    useImageLineage lookup (H.length + 1) S ≠ .fuelOut :=
  useImageLineage_no_fuelOut lookup H S hH

/-- Claim C5 witness: with an always-empty store (bound `[]`), fuel 1 already
suffices. -/
theorem claim_C5_witness :
    useImageLineage exEmptyLookup 1 exStart1 ≠ .fuelOut :=
  claim_C5_termination exEmptyLookup [] exStart1 (by
    intro h d hd p hp o ho
    simp only [exEmptyLookup, LookupOutcome.result.injEq, Option.some.injEq,
      true_and] at hd
    subst hd
    simp at hp)

/-- Claim C6 (confirmed): whenever the computation completes with a lineage
list, the node at every index `i` carries level exactly `i` — one node is
appended per iteration (including terminal synthesized ones), so levels equal
sequence positions. -/
theorem claim_C6_levels (lookup : String → LookupOutcome) (fuel : Nat)
    (S : ProofRecord) (ns : List LineageNode)
    (h : useImageLineage lookup fuel S = .ok ns) :
    ∀ (i : Nat) (hi : i < ns.length), (ns.get ⟨i, hi⟩).level = i := by
  intro i hi
  have hlv := levelsFrom_get ns 0 (useImageLineage_levels lookup fuel S ns h)
    i hi
  omega

/-- Claim C6 witness: in a concrete completed run the node at index 1 has
level 1. -/
theorem claim_C6_witness :
    (([{ proof := exStart1, level := 0, isOrphan := false },
       { proof := createOrphanProof "h1" "Private Image",
         level := 1, isOrphan := true }] : List LineageNode).get
      ⟨1, by decide⟩).level = 1 :=
  claim_C6_levels exEmptyLookup 1 exStart1 _ (by decide) 1 (by decide)

/-- Claim C7 (confirmed): whenever the computation completes, no hash occurs
twice among the `originalImageHash` fields of the non-orphan nodes of the
returned sequence: the visited set blocks any hash already incorporated. -/
theorem claim_C7_no_duplicate_ancestors (lookup : String → LookupOutcome)
    (fuel : Nat) (S : ProofRecord) (ns : List LineageNode)
    (h : useImageLineage lookup fuel S = .ok ns) :
    (nonOrphanOrigs ns).Nodup :=
  useImageLineage_nodup lookup fuel S ns h

/-- Claim C7 witness: the non-orphan original hashes of a concrete completed
run form a duplicate-free list. -/
theorem claim_C7_witness :
    (nonOrphanOrigs
      [{ proof := exStart1, level := 0, isOrphan := false },
       { proof := createOrphanProof "h1" "Private Image",
         level := 1, isOrphan := true }]).Nodup :=
  claim_C7_no_duplicate_ancestors exEmptyLookup 1 exStart1 _ (by decide)

/-- Claim C8, counterexample: the chain scenario is claimed for every
starting proof S with original hash "h1", but a starting proof whose own
transformed hash is "h0" pre-populates the visited set with "h0", so the
producer record P is appended as a terminal (circular) orphan at level 1 and
the private-image orphan for "h0" is never created. -/
theorem claim_C8_counterexample :
    useImageLineage exLookupC8 2 exStart8x =
      .ok [{ proof := exStart8x, level := 0, isOrphan := false },
           { proof := exP8, level := 1, isOrphan := true }]
    ∧ useImageLineage exLookupC8 2 exStart8x ≠
      .ok [{ proof := exStart8x, level := 0, isOrphan := false },
           { proof := exP8, level := 1, isOrphan := false },
           { proof := createOrphanProof "h0" "Private Image",
             level := 2, isOrphan := true }] := by
  constructor
  · decide
  · decide

/-- Claim C8 (amended): (i) in any iteration whose lookup succeeds with zero
records for the (truthy) current hash, a synthesized "Private Image" orphan
whose original hash is the current hash (and with no transformed hash, by
construction of `createOrphanProof`) is appended at the current level and the
walk stops; (ii) in the concrete chain scenario — start at "h1", lookup("h1")
= [P] with P transforming "h0" into "h1", lookup("h0") = [] — and provided
the starting proof's own transformed hash is not "h0", the result is exactly
[S at 0, P at 1, private-image orphan for "h0" at 2].  Fuel 2 (one unit per
lookup) suffices for the chain. -/
theorem claim_C8_private_image :
    (∀ (lookup : String → LookupOutcome) (nodes : List LineageNode)
        (visited : List String) (currentHash : String) (level : Nat),
      currentHash ≠ "" → lookup currentHash = .result true (some []) →
      loopStep lookup nodes visited currentHash level =
        .stop (nodes ++
          [{ proof := createOrphanProof currentHash "Private Image",
             level := level, isOrphan := true }]) true)
    ∧ (∀ (lookup : String → LookupOutcome) (fuel : Nat) (S P : ProofRecord),
      S.originalImageHash = some "h1" →
      S.transformedImageHash ≠ some "h0" →
      P.transformedImageHash = some "h1" → P.originalImageHash = some "h0" →
      lookup "h1" = .result true (some [P]) →
      lookup "h0" = .result true (some []) → 2 ≤ fuel →
      useImageLineage lookup fuel S =
        .ok [{ proof := S, level := 0, isOrphan := false },
             { proof := P, level := 1, isOrphan := false },
             { proof := createOrphanProof "h0" "Private Image",
               level := 2, isOrphan := true }]) := by
  constructor
  · intro lookup nodes visited currentHash level hch hlk
    exact loopStep_noRecords lookup nodes visited currentHash level hch hlk
  · intro lookup fuel S P hS hSt hPt hPo hlk1 hlk0 hfuel
    obtain ⟨n, rfl⟩ : ∃ n, fuel = n + 2 := ⟨fuel - 2, by omega⟩
    show useImageLineage lookup (n + 1 + 1) S = _
    have hfind1 : [P].find? (fun q => q.transformedImageHash == some "h1") =
        some P := List.find?_cons_of_pos _ (by simp [hPt])
    have hnv1 : "h0" ∉ initialVisited S :=
      not_mem_initialVisited S "h0" (by rw [hS]; simp) hSt
    have hstep1 := loopStep_accept lookup (initialNodes S)
      (initialVisited S) "h1" 1 [P] P "h0" hlk1 (by simp) hfind1 hPo
      (by decide) hnv1
    have hr1 := loopRun_succ_next lookup (n + 1) (initialNodes S)
      (initialVisited S) "h1" 1 false _ _ _ _ (by decide) hstep1
    have hstep2 := loopStep_noRecords lookup
      (initialNodes S ++ [{ proof := P, level := 1, isOrphan := false }])
      (addVisited (initialVisited S) P) "h0" 2 (by decide) hlk0
    have hr2 := loopRun_succ_stop lookup n
      (initialNodes S ++ [{ proof := P, level := 1, isOrphan := false }])
      (addVisited (initialVisited S) P) "h0" 2 true _ _ (by decide) hstep2
    have hr : loopRun lookup (n + 1 + 1) (initialNodes S) (initialVisited S)
        "h1" 1 false =
        .ok ((initialNodes S ++
            [{ proof := P, level := 1, isOrphan := false }]) ++
          [{ proof := createOrphanProof "h0" "Private Image",
             level := 2, isOrphan := true }]) true := by
      rw [hr1, hr2]
    rw [useImageLineage_of_loopRun lookup (n + 1 + 1) S "h1" _ _ hS
      (by decide) hr]
    rw [backfill_of_foundParent]
    simp [initialNodes]

/-- Claim C8 witness: the chain scenario run concretely: [S at 0, P at 1,
private-image orphan for "h0" at 2]. -/
theorem claim_C8_witness :
    useImageLineage exLookupC8 2 exStart1 =
      .ok [{ proof := exStart1, level := 0, isOrphan := false },
           { proof := exP8, level := 1, isOrphan := false },
           { proof := createOrphanProof "h0" "Private Image",
             level := 2, isOrphan := true }] :=
  claim_C8_private_image.2 exLookupC8 2 exStart1 exP8 rfl (by decide) rfl rfl
    rfl rfl (by decide)

/-- Claim C9 (confirmed): whenever the computation completes, the returned
list is non-empty and begins with exactly the unmodified starting proof at
level 0 (not an orphan); the walk only appends nodes after it. -/
theorem claim_C9_first_node (lookup : String → LookupOutcome) (fuel : Nat)
    (S : ProofRecord) (ns : List LineageNode)
    (h : useImageLineage lookup fuel S = .ok ns) :
    ∃ rest, ns = { proof := S, level := 0, isOrphan := false } :: rest := by
  obtain ⟨rest, hrest⟩ := useImageLineage_extends lookup fuel S ns h
  exact ⟨rest, by simpa [initialNodes] using hrest⟩

/-- Claim C9 witness: a concrete completed run starts with the starting node
at level 0. -/
theorem claim_C9_witness :
    ∃ rest,
      ([{ proof := exStart1, level := 0, isOrphan := false },
        { proof := createOrphanProof "h1" "Private Image",
          level := 1, isOrphan := true }] : List LineageNode) =
        { proof := exStart1, level := 0, isOrphan := false } :: rest :=
  claim_C9_first_node exEmptyLookup 1 exStart1 _ (by decide)

/-- Claim C10 (confirmed): whenever the computation completes, every node
other than the final one is a real (non-orphan) record; hence at most one
node carries the orphan flag and, when present, it is the last element. -/
theorem claim_C10_orphan_only_last (lookup : String → LookupOutcome)
    (fuel : Nat) (S : ProofRecord) (ns : List LineageNode)
    (h : useImageLineage lookup fuel S = .ok ns) :
    (∀ n ∈ ns.dropLast, n.isOrphan = false)
    ∧ (ns.filter (fun n => n.isOrphan)).length ≤ 1 := by
  have hlast := useImageLineage_orphanLast lookup fuel S ns h
  exact ⟨hlast, filter_orphan_length_le_one ns hlast⟩

/-- Claim C10 witness: a concrete completed run has at most one orphan
node. -/
theorem claim_C10_witness :
    (([{ proof := exStart1, level := 0, isOrphan := false },
       { proof := createOrphanProof "h1" "Private Image",
         level := 1, isOrphan := true }] : List LineageNode).filter
      (fun n => n.isOrphan)).length ≤ 1 :=
  (claim_C10_orphan_only_last exEmptyLookup 1 exStart1 _ (by decide)).2
